import Mathlib

/-!
Shallow embedding of the hyrox result-scraping pipeline (`hydrox/data.py`).

Text is modelled as `List Char` (`Str`).  Pandas `Series`/`DataFrame`
values are modelled positionally: a raw table is a header row plus data
rows of cells; a series is a list of (label, value) pairs.  A Python
exception is modelled as `Except.error`/`Option.none` at the function
that raises it; a caught exception is an `Except.ok` of the fallback
value.  `NaN` cells (missing durations) are `Option.none`.

Modelling notes, recorded once here:
* pandas `Series.str.split(sep, expand=True)` pads short rows with
  `None` and `astype(int)` then raises; with no rows it produces a
  zero-column frame so that `@ multiplier` raises a shape error.  Both
  failure modes are folded into the single `Option.none` result of
  `time_to_seconds`, mirroring that the Python caller sees an uncaught
  exception in either case.
* `DataFrame.set_index`/`reindex` alignment is modelled positionally,
  which coincides with pandas behaviour when the index labels are
  unique; duplicate-label indexes (where pandas raises on reindex) are
  outside the modelled fragment and the aggregation theorems carry
  label-uniqueness hypotheses where it matters.
* `pd.concat(axis=1)` column alignment is modelled by an index union
  that keeps first-then-second order; pandas may additionally sort the
  union, so the aggregation theorems only state order-insensitive
  (membership / cell-content) properties of the joined table.
* Python `int(str)` is modelled over the ASCII character set: it
  strips surrounding whitespace, allows one optional sign, and accepts
  a digit run with single underscores between digits.  Unicode decimal
  digits and non-ASCII whitespace, which `int` also accepts, are
  outside the modelled character set; failure theorems therefore only
  assume characters `int` can never accept (`hostileChar`).
-/

abbrev Str := List Char

/-- The dash glyph used by the result pages for a missing time. -/
def sentinel : Str := ['–']

/-- Python `str.split(sep)` for a one-character separator: every
occurrence splits, empty fields are kept, and the result is never
empty (`"".split(sep) == [""]`). -/
def splitOnSep (sep : Char) : Str → List Str
  | [] => [[]]
  | c :: cs =>
    if c = sep then [] :: splitOnSep sep cs
    else
      match splitOnSep sep cs with
      | [] => [[c]]
      | f :: fs => (c :: f) :: fs

/-- Value of a decimal digit string (most significant first). -/
def digitsToNat (cs : Str) : Nat :=
  cs.foldl (fun a c => 10 * a + (c.toNat - '0'.toNat)) 0

/-- The whitespace characters `int()` strips, over the modelled
(ASCII) character set. -/
def pySpace (c : Char) : Bool :=
  c == ' ' || c == '\t' || c == '\n' || c == '\r' || c == '\x0b' || c == '\x0c'

/-- Strip leading and trailing whitespace, as `int(str)` does before
parsing. -/
def pyStrip (s : Str) : Str :=
  ((s.dropWhile pySpace).reverse.dropWhile pySpace).reverse

/-- Continuation of a digit run: digits, with a single underscore
allowed only between two digits (Python's digit-separator rule). -/
def digitsTail : Str → Bool
  | [] => true
  | c :: rest =>
    if c = '_' then
      match rest with
      | [] => false
      | d :: rest2 => d.isDigit && digitsTail rest2
    else c.isDigit && digitsTail rest

/-- A nonempty digit run with optional single underscores between
digits — the body `int()` accepts after sign removal. -/
def pyDigits : Str → Bool
  | [] => false
  | c :: rest => c.isDigit && digitsTail rest

/-- Numeric value of an accepted digit run (underscores dropped). -/
def pyIntValue (cs : Str) : Nat := digitsToNat (cs.filter (fun c => c != '_'))

/-- The stripped string minus one optional leading sign. -/
def pyCore (s : Str) : Str :=
  let t := pyStrip s
  if t.head? == some '-' || t.head? == some '+' then t.tail else t

/-- Python `int(s)` on the modelled (ASCII) character set: strip
surrounding whitespace, allow one optional sign, then a nonempty digit
run in which single underscores may stand between digits; anything
else raises `ValueError`, modelled as `none`.  Unicode decimal digits
and non-ASCII whitespace, which `int` also accepts, are outside the
modelled character set, so theorems that conclude failure only assume
a field containing a character `int` can never accept
(`hostileChar`). -/
def pyInt (s : Str) : Option Int :=
  if pyDigits (pyCore s) then
    if (pyStrip s).head? == some '-' then some (-(pyIntValue (pyCore s) : Int))
    else some ((pyIntValue (pyCore s) : Int))
  else none

/-- An ASCII character that can never occur in a string accepted by
`int()`: not a digit, sign, underscore or whitespace. -/
def hostileChar (c : Char) : Bool :=
  decide (c.toNat < 128) &&
    !(c.isDigit || c == '+' || c == '-' || c == '_' || pySpace c)

/-- The unit-conversion vector `np.array([60 * 60, 60, 1])`. -/
def multiplier : List Int := [3600, 60, 1]

/-- Row-by-vector product used for `split @ multiplier`. -/
def dotProd : List Int → List Int → Int
  | x :: xs, y :: ys => x * y + dotProd xs ys
  | _, _ => 0

/-- The field split `times.str.split(":")` applied to one cell. -/
def rowSplit (t : Str) : List Str := splitOnSep ':' t

/-- Seconds value contributed by one non-sentinel cell once the global
width and integer checks have passed. -/
def rowValue (t : Str) : Int := dotProd ((rowSplit t).filterMap pyInt) multiplier

/-- The final `result.reindex(times.index)`: walk the original cells,
putting `NaN` (`none`) at sentinel positions and the next computed
value at every other position. -/
def reindexBySentinel : List Str → List Int → List (Option Int)
  | [], _ => []
  | t :: ts, vs =>
    if t = sentinel then none :: reindexBySentinel ts vs
    else
      match vs with
      | [] => none :: reindexBySentinel ts []
      | v :: vs => some v :: reindexBySentinel ts vs

/-- `time_to_seconds` from the source: drop sentinel cells, split the
rest on `":"`, convert every field with `int`, multiply by
`[3600, 60, 1]` and reindex onto the original positions.  `none`
models the uncaught exception pandas raises when a field is not an
integer, when the rows do not all have the width of the widest row, or
when that width is not three (including the zero-column frame produced
when every cell is the sentinel). -/
def time_to_seconds (times : List Str) : Option (List (Option Int)) :=
  let nonNull := times.filter (fun t => t != sentinel)
  let rows := nonNull.map rowSplit
  let width := rows.foldl (fun a r => max a r.length) 0
  if rows.all (fun r => r.length == width && r.all (fun c => (pyInt c).isSome)) then
    if width = 3 then
      some (reindexBySentinel times (rows.map (fun r => dotProd (r.filterMap pyInt) multiplier)))
    else none
  else none

/-- A raw 2-D table as returned by `pd.read_html`: a header row naming
the columns and the data rows. -/
structure RawTable where
  header : List Str
  rows : List (List Str)
deriving DecidableEq

/-- One row of the workout-result block after `set_index("Split")` and
the derived `seconds` column have been applied. -/
structure WorkoutRow where
  split : Str
  time : Str
  seconds : Option Int
deriving DecidableEq

/-- The parsed record for one athlete (`IndividualDetails`). -/
structure IndividualDetails where
  participant : List (Str × Str)
  scoring : RawTable
  workout_result : List WorkoutRow
  judge_decision : RawTable
  overall_time : RawTable
  splits : RawTable
deriving DecidableEq

/-- The batch collection (`Details`); a `none` entry is the `None`
returned for an athlete whose page read failed. -/
structure Details where
  individuals : List (Option IndividualDetails)
deriving DecidableEq

/-- Lookup in the participant series (`participant["Name"]`);
`none` models the `KeyError` raised on a missing key. -/
def lookupSeries (s : List (Str × Str)) (k : Str) : Option Str :=
  (s.find? (fun p => p.1 == k)).map Prod.snd

/-- Python `str(n)` for an integer. -/
def intRepr (n : Int) : Str :=
  if n < 0 then '-' :: Nat.toDigits 10 n.natAbs else Nat.toDigits 10 n.natAbs

/-- The `ordinal` helper from the source. -/
def ordinal (n : Int) : Str :=
  let suffix :=
    if 11 ≤ n % 100 ∧ n % 100 ≤ 13 then "th".toList
    else ["th".toList, "st".toList, "nd".toList, "rd".toList, "th".toList].getD
      (min (n % 10) 4).toNat "th".toList
  intRepr n ++ suffix

/-- `get_rank`: `int(self.overall_time[1].iloc[0])`; `none` models the
exception raised when the cell is absent or not an integer. -/
def IndividualDetails.get_rank (d : IndividualDetails) : Option Int :=
  ((d.overall_time.rows[0]?).bind (fun r => r[1]?)).bind pyInt

/-- `get_name`: the participant's `"Name"` entry, optionally prefixed
with the ordinal-formatted rank. -/
def IndividualDetails.get_name (d : IndividualDetails) (with_rank : Bool) : Option Str :=
  (lookupSeries d.participant "Name".toList).bind (fun nm =>
    if with_rank then (d.get_rank).map (fun rk => ordinal rk ++ ' ' :: nm)
    else some nm)

/-- `get_exercises`: the `seconds` column of the workout block, keyed
by split label. -/
def IndividualDetails.get_exercises (d : IndividualDetails) : List (Str × Option Int) :=
  d.workout_result.map (fun r => (r.split, r.seconds))

/-- Bool-valued test that `pat` starts the second list. -/
def isPrefixL : Str → Str → Bool
  | [], _ => true
  | _ :: _, [] => false
  | p :: ps, c :: cs => p == c && isPrefixL ps cs

/-- Substring containment, the semantics of
`index.str.contains("Running")` for a pattern with no regex
metacharacters. -/
def containsSub (pat : Str) : Str → Bool
  | [] => pat.isEmpty
  | c :: cs => isPrefixL pat (c :: cs) || containsSub pat cs

/-- `filter_running`: keep the rows whose split label contains the text
`"Running"`. -/
def filter_running (rows : List WorkoutRow) : List WorkoutRow :=
  rows.filter (fun r => containsSub "Running".toList r.split)

/-- `get_runs`: seconds of the running rows, re-indexed `1..K` under
the index name "Run". -/
def IndividualDetails.get_runs (d : IndividualDetails) : List (Nat × Option Int) :=
  List.enumFrom 1 ((filter_running d.workout_result).map (fun r => r.seconds))

/-- Every other element of a list starting with the first. -/
def stride2 {α : Type} : List α → List α
  | [] => []
  | [x] => [x]
  | x :: _ :: xs => x :: stride2 xs

/-- Python slice `l[1:-2:2]`: positions 1, 3, 5, … strictly below
`len - 2`. -/
def ilocOneToMinusTwoStepTwo {α : Type} (l : List α) : List α :=
  stride2 ((l.take (l.length - 2)).drop 1)

/-- `get_other_exercises`: the `seconds` column of `iloc[1:-2:2]` of
the workout block, still keyed by split label. -/
def IndividualDetails.get_other_exercises (d : IndividualDetails) : List (Str × Option Int) :=
  (ilocOneToMinusTwoStepTwo d.workout_result).map (fun r => (r.split, r.seconds))

/-- Python exception kinds that can escape the modelled fragment. -/
inductive PyErr where
  | indexError
  | keyError
  | valueError
deriving DecidableEq

/-- `get_base_url`: text before the first `"?"`, with `"index.php"`
appended when it is not already the suffix. -/
def get_base_url (url : Str) : Str :=
  let base := (splitOnSep '?' url).headD []
  if "index.php".toList.isSuffixOf base then base else base ++ "index.php".toList

/-- The inner `get_href` of `get_all_hrefs`.  A list item is modelled
as `Option (Option Str)`: `none` when it holds no anchor (`find("a")`
is `None`, and the function returns `None`), `some none` when the
anchor has no `href` attribute (`a["href"]` raises `KeyError`), and
`some (some h)` for an anchor with `href` `h`. -/
def get_href (row : Option (Option Str)) : Except PyErr (Option Str) :=
  match row with
  | none => Except.ok none
  | some none => Except.error PyErr.keyError
  | some (some h) => Except.ok (some h)

/-- Interpolation of `get_href`'s result into the f-string: Python
renders `None` as the text `"None"`. -/
def pyReprOfOptStr : Option Str → Str
  | none => "None".toList
  | some s => s

/-- `get_all_hrefs`: fetch the listing page's list items (the fetch and
soup lookup are abstracted into `fetchRows`) and build
`f"{base_url}{get_href(row)}"` for each row in document order. -/
def get_all_hrefs (fetchRows : Str → List (Option (Option Str))) (url : Str) :
    Except PyErr (List Str) :=
  let rows := fetchRows url
  let base := get_base_url url
  rows.mapM (fun row => (get_href row).map (fun h => base ++ pyReprOfOptStr h))

/-- Lift an optional value into `Except`, raising `e` on `none`. -/
def orElseErr {α : Type} (e : PyErr) : Option α → Except PyErr α
  | none => Except.error e
  | some a => Except.ok a

/-- Position of a named column in a table header (a `none` models the
`KeyError` pandas raises for a missing column). -/
def colIndex (t : RawTable) (name : Str) : Option Nat :=
  t.header.findIdx? (fun h => h == name)

/-- `IndividualDetails.from_url`.  Only the `pd.read_html` call sits
inside the `try`: a read failure (`read_html url = none`) is caught and
becomes `ok none`, while every later step — the six positional table
accesses, `set_index("Split")`, the `"Time"` column access and
`time_to_seconds` — raises past the function when it fails.  Failure
order follows the source's argument evaluation order.  The participant
block reshape `dfs[0].set_index(0).squeeze()` is modelled as the list
of (first cell, second cell) pairs. -/
def IndividualDetails.from_url (read_html : Str → Option (List RawTable)) (url : Str) :
    Except PyErr (Option IndividualDetails) :=
  match read_html url with
  | none => Except.ok none
  | some dfs => do
    let t0 ← orElseErr PyErr.indexError dfs[0]?
    let t1 ← orElseErr PyErr.indexError dfs[1]?
    let t2 ← orElseErr PyErr.indexError dfs[2]?
    let jSplit ← orElseErr PyErr.keyError (colIndex t2 "Split".toList)
    let t3 ← orElseErr PyErr.indexError dfs[3]?
    let t4 ← orElseErr PyErr.indexError dfs[4]?
    let t5 ← orElseErr PyErr.indexError dfs[5]?
    let jTime ← orElseErr PyErr.keyError (colIndex t2 "Time".toList)
    let secs ← orElseErr PyErr.valueError
      (time_to_seconds (t2.rows.map (fun r => r.getD jTime [])))
    Except.ok (some {
      participant := t0.rows.map (fun r => (r.getD 0 [], r.getD 1 [])),
      scoring := t1,
      workout_result := (t2.rows.zip secs).map (fun p =>
        { split := p.1.getD jSplit [], time := p.1.getD jTime [], seconds := p.2 }),
      judge_decision := t3,
      overall_time := t4,
      splits := t5 })

/-- `Details.from_urls`: extend the href list from every listing url,
then parse each href; the list comprehension stops at the first
uncaught exception. -/
def Details.from_urls (read_html : Str → Option (List RawTable))
    (fetchRows : Str → List (Option (Option Str))) (urls : List Str) :
    Except PyErr Details := do
  let hrefLists ← urls.mapM (get_all_hrefs fetchRows)
  let individuals ← hrefLists.flatten.mapM (IndividualDetails.from_url read_html)
  Except.ok { individuals := individuals }

/-- Union of the athletes' index label lists, first-then-second order
(pandas may further sort; only membership is relied on). -/
def unionIndex (ls : List (List Str)) : List Str :=
  ls.foldl (fun acc l => acc ++ l.filter (fun x => !acc.contains x)) []

/-- Cell of the joined table: the athlete's first entry at that label,
or `NaN` when the label is absent from the athlete's index. -/
def seriesGet (s : List (Str × Option Int)) (lbl : Str) : Option Int :=
  match s.find? (fun p => p.1 == lbl) with
  | some p => p.2
  | none => none

/-- `Details.get_exercises`: name each athlete's exercises series, then
`pd.concat(axis=1).T` — rows are athletes, columns are the union of
the exercise labels, absent labels giving `NaN` cells.  The outer
`none` models the exception raised when an entry is `None` or a name
lookup fails.  The label alignment is modelled by first-match lookup,
which coincides with pandas only while every athlete's label list is
duplicate-free: on a duplicated label pandas raises "cannot reindex
from a duplicate axis", a path outside this model, so the aggregation
theorem restricts itself to duplicate-free records through explicit
`Nodup` hypotheses. -/
def Details.get_exercises (ds : Details) (with_rank : Bool) :
    Option (List (Str × List (Str × Option Int))) := do
  let named ← ds.individuals.mapM (fun oi => do
    let i ← oi
    let nm ← i.get_name with_rank
    some (nm, i.get_exercises))
  let labels := unionIndex (named.map (fun p => p.2.map Prod.fst))
  some (named.map (fun p => (p.1, labels.map (fun lbl => (lbl, seriesGet p.2 lbl)))))

/-- Total extractor for the caught-read outcome of `from_url`: an
uncaught error is mapped to `none` (used only under an is-ok
hypothesis). -/
def okOrNone : Except PyErr (Option IndividualDetails) → Option IndividualDetails
  | Except.ok v => v
  | Except.error _ => none

/-- Shape predicate of the specification: a clock string `H:MM:SS` or
`HH:MM:SS` — three all-digit fields, the hours field one or two digits
(so its value is in [0, 99]), minutes and seconds exactly two digits. -/
def validClock (w : Str) : Bool :=
  match rowSplit w with
  | [f0, f1, f2] =>
    (!f0.isEmpty && f0.all Char.isDigit) && decide (f0.length ≤ 2) &&
    (!f1.isEmpty && f1.all Char.isDigit) && f1.length == 2 &&
    (!f2.isEmpty && f2.all Char.isDigit) && f2.length == 2
  | _ => false

/-- Hours field value of a clock string. -/
def hoursOf (w : Str) : Nat := digitsToNat ((rowSplit w).getD 0 [])

/-- Minutes field value of a clock string. -/
def minutesOf (w : Str) : Nat := digitsToNat ((rowSplit w).getD 1 [])

/-- Seconds field value of a clock string. -/
def secondsOf (w : Str) : Nat := digitsToNat ((rowSplit w).getD 2 [])

/-- The specification's `hours*3600 + minutes*60 + seconds`. -/
def clockSecs (w : Str) : Int :=
  ((3600 * hoursOf w + 60 * minutesOf w + secondsOf w : Nat) : Int)

/-! Concrete fixtures used by counterexamples and witnesses. -/

/-- An empty auxiliary table. -/
def emptyTbl : RawTable := { header := [], rows := [] }

/-- A well-formed workout-result block: Roxzone row plus one running
row, with parseable times. -/
def workoutTbl : RawTable :=
  { header := ["Split".toList, "Time".toList],
    rows := [["Roxzone Time".toList, "0:05:00".toList],
             ["Running 1".toList, "0:04:30".toList]] }

/-- A six-table page in the positional order the parser expects. -/
def goodDfs : List RawTable :=
  [ { header := [], rows := [["Name".toList, "Alice".toList]] },
    emptyTbl, workoutTbl, emptyTbl,
    { header := [], rows := [["Overall Time".toList, "1".toList]] },
    emptyTbl ]

/-- A page whose read succeeded but produced only three tables. -/
def shortDfs : List RawTable := [emptyTbl, emptyTbl, workoutTbl]

/-- A listing page with two anchors carrying hrefs. -/
def demoFetchRows : Str → List (Option (Option Str)) :=
  fun _ => [some (some "?pidp=A".toList), some (some "?pidp=B".toList)]

/-- An environment in which athlete A's page reads as six good tables
while athlete B's page reads as only three tables (a structure
failure after a successful read). -/
def demoReadHtml : Str → Option (List RawTable) := fun u =>
  if u = "https://hy/index.php?pidp=A".toList then some goodDfs
  else if u = "https://hy/index.php?pidp=B".toList then some shortDfs
  else none

/-- An environment in which athlete A's page reads fine and athlete
B's page read itself fails (caught by the `try`). -/
def wReadHtml : Str → Option (List RawTable) := fun u =>
  if u = "https://hy/index.php?pidp=A".toList then some goodDfs else none

/-- A record whose only workout row is a running row. -/
def athleteA : IndividualDetails :=
  { participant := [("Name".toList, "Alice".toList)],
    scoring := emptyTbl,
    workout_result :=
      [{ split := "Running 1".toList, time := "0:04:30".toList, seconds := some 270 }],
    judge_decision := emptyTbl,
    overall_time := { header := [], rows := [["Overall".toList, "1".toList]] },
    splits := emptyTbl }

/-- A record whose only workout row is a strength exercise, with a
label set disjoint from athlete A's. -/
def athleteB : IndividualDetails :=
  { participant := [("Name".toList, "Bob".toList)],
    scoring := emptyTbl,
    workout_result :=
      [{ split := "Wall Balls".toList, time := "0:05:00".toList, seconds := some 300 }],
    judge_decision := emptyTbl,
    overall_time := { header := [], rows := [["Overall".toList, "2".toList]] },
    splits := emptyTbl }

/-! Helper lemmas about the text model. -/

theorem splitOnSep_no_sep (sep : Char) (cs : Str) (h : ∀ c ∈ cs, c ≠ sep) :
    splitOnSep sep cs = [cs] := by
  induction cs with
  | nil => rfl
  | cons c cs ih =>
    have hc : c ≠ sep := h c (by simp)
    simp only [splitOnSep, if_neg hc, ih (fun x hx => h x (by simp [hx]))]

theorem splitOnSep_append (sep : Char) (cs rest : Str) (h : ∀ c ∈ cs, c ≠ sep) :
    splitOnSep sep (cs ++ sep :: rest) = cs :: splitOnSep sep rest := by
  induction cs with
  | nil =>
    simp [splitOnSep]
  | cons c cs ih =>
    have hc : c ≠ sep := h c (by simp)
    show splitOnSep sep (c :: (cs ++ sep :: rest)) = _
    simp only [splitOnSep, if_neg hc]
    rw [ih (fun x hx => h x (by simp [hx]))]

/-- A digit is `BEq`-distinct from any concrete non-digit character. -/
theorem beq_false_of_digit_ne {c x : Char} (h : c.isDigit = true) (hx : x.isDigit = false) :
    (c == x) = false := by
  cases hc : c == x with
  | false => rfl
  | true =>
    have he : c = x := eq_of_beq hc
    subst he
    rw [h] at hx
    exact Bool.noConfusion hx

theorem pySpace_of_digit {c : Char} (h : c.isDigit = true) : pySpace c = false := by
  unfold pySpace
  rw [beq_false_of_digit_ne h (by decide), beq_false_of_digit_ne h (by decide),
    beq_false_of_digit_ne h (by decide), beq_false_of_digit_ne h (by decide),
    beq_false_of_digit_ne h (by decide), beq_false_of_digit_ne h (by decide)]
  rfl

theorem pyStrip_eq_self {f : Str} (h : ∀ c ∈ f, pySpace c = false) : pyStrip f = f := by
  unfold pyStrip
  have h1 : f.dropWhile pySpace = f := by
    cases f with
    | nil => rfl
    | cons c cs =>
      rw [List.dropWhile_cons]
      simp [h c (by simp)]
  rw [h1]
  have h2 : f.reverse.dropWhile pySpace = f.reverse := by
    cases hr : f.reverse with
    | nil => rfl
    | cons c cs =>
      have hcm : c ∈ f := by
        rw [← List.mem_reverse, hr]
        simp
      rw [List.dropWhile_cons]
      simp [h c hcm]
  rw [h2, List.reverse_reverse]

theorem digitsTail_of_digits {l : Str} (h : ∀ c ∈ l, c.isDigit = true) :
    digitsTail l = true := by
  induction l with
  | nil => rfl
  | cons c rest ih =>
    have hc : c.isDigit = true := h c (by simp)
    have hrest : digitsTail rest = true := ih (fun x hx => h x (by simp [hx]))
    have hcu : ¬ c = '_' := by
      intro he
      subst he
      exact absurd hc (by decide)
    rw [digitsTail.eq_def]
    simp only [if_neg hcu]
    rw [hc, hrest]
    rfl

theorem pyInt_digits (f : Str) (hne : f ≠ []) (hd : f.all Char.isDigit = true) :
    pyInt f = some ((digitsToNat f : Int)) := by
  match f, hne with
  | c :: cs, _ =>
    have hall : ∀ x ∈ c :: cs, x.isDigit = true := by
      intro x hx
      have := List.all_eq_true.mp hd x hx
      simpa using this
    have hstrip : pyStrip (c :: cs) = c :: cs :=
      pyStrip_eq_self (fun x hx => pySpace_of_digit (hall x hx))
    have hc : c.isDigit = true := hall c (by simp)
    have hm2 : ((c :: cs : Str).head? == some '-') = false :=
      beq_false_of_digit_ne hc (by decide)
    have hp2 : ((c :: cs : Str).head? == some '+') = false :=
      beq_false_of_digit_ne hc (by decide)
    have hcore : pyCore (c :: cs) = c :: cs := by
      simp only [pyCore, hstrip, hm2, hp2, Bool.or_self, Bool.false_eq_true, if_false]
    have ht : digitsTail cs = true :=
      digitsTail_of_digits (fun x hx => hall x (List.mem_cons_of_mem c hx))
    have hpd : pyDigits (c :: cs) = true := by
      simp only [pyDigits, hc, ht]
      rfl
    have hfil : (c :: cs).filter (fun x => x != '_') = c :: cs := by
      apply List.filter_eq_self.mpr
      intro a ha
      have hau : (a == '_') = false := beq_false_of_digit_ne (hall a ha) (by decide)
      simp [bne, hau]
    unfold pyInt
    rw [hcore, hpd, hstrip, hm2]
    simp only [pyIntValue, hfil, Bool.false_eq_true, if_false, if_true]

/-- A non-whitespace member survives a whitespace `dropWhile`. -/
theorem mem_dropWhile_of_not {l : Str} {c : Char} (hc : c ∈ l) (hp : pySpace c = false) :
    c ∈ l.dropWhile pySpace := by
  induction l with
  | nil => simp at hc
  | cons x xs ih =>
    rw [List.dropWhile_cons]
    by_cases hx : pySpace x = true
    · rw [if_pos hx]
      rcases List.mem_cons.mp hc with he | hxs
      · rw [he] at hp
        rw [hx] at hp
        exact Bool.noConfusion hp
      · exact ih hxs
    · rw [if_neg hx]
      exact hc

/-- A non-whitespace member survives the surrounding-whitespace strip. -/
theorem mem_pyStrip {l : Str} {c : Char} (hc : c ∈ l) (hp : pySpace c = false) :
    c ∈ pyStrip l := by
  unfold pyStrip
  rw [List.mem_reverse]
  exact mem_dropWhile_of_not (List.mem_reverse.mpr (mem_dropWhile_of_not hc hp)) hp

/-- Every character of an accepted digit-run continuation is a digit
or an underscore. -/
theorem digitsTail_mem {l : Str} (h : digitsTail l = true) :
    ∀ c ∈ l, c.isDigit = true ∨ c = '_' := by
  induction l using digitsTail.induct with
  | case1 =>
    intro c hc
    simp at hc
  | case2 =>
    rw [digitsTail.eq_def] at h
    simp at h
  | case3 d rest2 ih =>
    rw [digitsTail.eq_def] at h
    simp at h
    intro c hc
    rcases List.mem_cons.mp hc with he | hc2
    · exact Or.inr he
    · rcases List.mem_cons.mp hc2 with he | hc3
      · exact Or.inl (he ▸ h.1)
      · exact ih h.2 c hc3
  | case4 c0 cs hne ih =>
    rw [digitsTail.eq_def] at h
    simp [hne] at h
    intro c hc
    rcases List.mem_cons.mp hc with he | hc2
    · exact Or.inl (he ▸ h.1)
    · exact ih h.2 c hc2

/-- Every character of an accepted integer body is a digit or an
underscore. -/
theorem pyDigits_mem {l : Str} (h : pyDigits l = true) :
    ∀ c ∈ l, c.isDigit = true ∨ c = '_' := by
  match l, h with
  | [], h => exact absurd h (by decide)
  | c0 :: rest, h =>
    simp only [pyDigits, Bool.and_eq_true] at h
    intro x hx
    rcases List.mem_cons.mp hx with he | hxs
    · exact Or.inl (he ▸ h.1)
    · exact digitsTail_mem h.2 x hxs

/-- A field containing a character `int()` can never accept fails to
convert, whatever else the field holds. -/
theorem pyInt_none_of_hostile {f : Str} {c : Char} (hcf : c ∈ f)
    (hh : hostileChar c = true) : pyInt f = none := by
  have h2 := hh
  unfold hostileChar at h2
  rw [Bool.and_eq_true] at h2
  obtain ⟨-, h2⟩ := h2
  simp only [Bool.not_eq_true', Bool.or_eq_false_iff, beq_eq_false_iff_ne, ne_eq] at h2
  obtain ⟨⟨⟨⟨hdg, hplus⟩, hminus⟩, hund⟩, hsp⟩ := h2
  have hmem1 : c ∈ pyStrip f := mem_pyStrip hcf hsp
  have hcore : c ∈ pyCore f := by
    simp only [pyCore]
    by_cases hsign : ((pyStrip f).head? == some '-' || (pyStrip f).head? == some '+') = true
    · rw [if_pos hsign]
      cases hps : pyStrip f with
      | nil =>
        rw [hps] at hmem1
        simp at hmem1
      | cons x xs =>
        rw [hps] at hsign hmem1
        have hx : ((x == '-') || (x == '+')) = true := hsign
        rcases List.mem_cons.mp hmem1 with he | hxs
        · exfalso
          rw [← he] at hx
          have hm : (c == '-') = false := by
            cases hcb : c == '-' with
            | false => rfl
            | true => exact absurd (eq_of_beq hcb) hminus
          have hp : (c == '+') = false := by
            cases hcb : c == '+' with
            | false => rfl
            | true => exact absurd (eq_of_beq hcb) hplus
          rw [hm, hp] at hx
          exact Bool.noConfusion hx
        · simpa using hxs
    · rw [if_neg hsign]
      exact hmem1
  have hpd : pyDigits (pyCore f) = false := by
    cases hq : pyDigits (pyCore f) with
    | false => rfl
    | true =>
      exfalso
      rcases pyDigits_mem hq c hcore with h1 | h1
      · rw [hdg] at h1
        exact Bool.noConfusion h1
      · exact hund h1
  unfold pyInt
  rw [hpd]
  simp only [Bool.false_eq_true, if_false]

/-- Reassembly correctness: reindexing the values computed from the
non-sentinel cells puts, at every position, `none` for a sentinel and
the value of the cell itself otherwise. -/
theorem reindexBySentinel_filter (times : List Str) (f : Str → Int) :
    reindexBySentinel times ((times.filter (fun t => t != sentinel)).map f) =
      times.map (fun t => if t = sentinel then none else some (f t)) := by
  induction times with
  | nil => rfl
  | cons t ts ih =>
    by_cases ht : t = sentinel
    · simp [reindexBySentinel, ht, List.filter_cons, ih]
    · simp [reindexBySentinel, ht, List.filter_cons, ih]

/-- Unpacking the specification's clock-shape predicate: three fields,
each a nonempty digit string, with the stated digit-count bounds. -/
theorem validClock_elim {w : Str} (h : validClock w = true) :
    ∃ f0 f1 f2, rowSplit w = [f0, f1, f2] ∧
      (f0 ≠ [] ∧ f0.all Char.isDigit = true ∧ f0.length ≤ 2) ∧
      (f1 ≠ [] ∧ f1.all Char.isDigit = true ∧ f1.length = 2) ∧
      (f2 ≠ [] ∧ f2.all Char.isDigit = true ∧ f2.length = 2) := by
  unfold validClock at h
  match hs : rowSplit w with
  | [] => rw [hs] at h; simp at h
  | [f0] => rw [hs] at h; simp at h
  | [f0, f1] => rw [hs] at h; simp at h
  | f0 :: f1 :: f2 :: f3 :: fs => rw [hs] at h; simp at h
  | [f0, f1, f2] =>
    rw [hs] at h
    simp only [Bool.and_eq_true, Bool.not_eq_true', decide_eq_true_eq, beq_iff_eq] at h
    have ne_of : ∀ l : Str, l.isEmpty = false → l ≠ [] := by
      intro l hl he
      subst he
      simp at hl
    exact ⟨f0, f1, f2, rfl, ⟨ne_of f0 h.1.1.1.1.1.1, h.1.1.1.1.1.2, h.1.1.1.1.2⟩,
      ⟨ne_of f1 h.1.1.1.2.1, h.1.1.1.2.2, h.1.1.2⟩, ⟨ne_of f2 h.1.2.1, h.1.2.2, h.2⟩⟩

theorem validClock_ne_sentinel {w : Str} (h : validClock w = true) : w ≠ sentinel := by
  obtain ⟨f0, f1, f2, hs, -, -, -⟩ := validClock_elim h
  intro hw
  subst hw
  have : rowSplit sentinel = [['–']] := by decide
  rw [this] at hs
  simp at hs

/-- For a valid clock string the per-row product computes exactly
`hours*3600 + minutes*60 + seconds`. -/
theorem rowValue_validClock {w : Str} (h : validClock w = true) :
    rowValue w = clockSecs w := by
  obtain ⟨f0, f1, f2, hs, ⟨h0ne, h0d, -⟩, ⟨h1ne, h1d, -⟩, ⟨h2ne, h2d, -⟩⟩ := validClock_elim h
  have p0 := pyInt_digits f0 h0ne h0d
  have p1 := pyInt_digits f1 h1ne h1d
  have p2 := pyInt_digits f2 h2ne h2d
  unfold rowValue clockSecs hoursOf minutesOf secondsOf
  rw [hs]
  simp only [List.filterMap_cons, p0, p1, p2, List.filterMap_nil, List.getD,
    List.get?_cons_zero, List.get?_cons_succ, Option.getD_some]
  simp only [dotProd, multiplier]
  push_cast
  ring

/-- When `time_to_seconds` returns, the result is pointwise determined:
`none` at sentinel positions, the cell's own `rowValue` elsewhere. -/
theorem tts_some_eq {times : List Str} {res : List (Option Int)}
    (h : time_to_seconds times = some res) :
    res = times.map (fun t => if t = sentinel then none else some (rowValue t)) := by
  simp only [time_to_seconds] at h
  split at h
  · split at h
    · injection h with h
      rw [← h, List.map_map]
      have hc : ((fun r => dotProd (List.filterMap pyInt r) multiplier) ∘ rowSplit) = rowValue :=
        rfl
      rw [hc]
      exact reindexBySentinel_filter times rowValue
    · exact absurd h (by simp)
  · exact absurd h (by simp)

/-- Positional form of `tts_some_eq`. -/
theorem tts_getElem {times : List Str} {res : List (Option Int)}
    (h : time_to_seconds times = some res) {i : Nat} {t : Str}
    (ht : times[i]? = some t) :
    res[i]? = some (if t = sentinel then none else some (rowValue t)) := by
  rw [tts_some_eq h, List.getElem?_map, ht]
  rfl

theorem foldl_max_const {rows : List (List Str)} (h : ∀ r ∈ rows, r.length = 3) :
    ∀ a : Nat, rows.foldl (fun a r => max a r.length) a = if rows.isEmpty then a else max a 3 := by
  induction rows with
  | nil => intro a; simp
  | cons r rs ih =>
    intro a
    have hr : r.length = 3 := h r (by simp)
    simp only [List.foldl_cons, hr, List.isEmpty_cons]
    rw [ih (fun x hx => h x (by simp [hx]))]
    by_cases he : rs.isEmpty
    · simp [he]
    · simp [he, Nat.max_assoc]

/-- On a batch whose cells are all sentinels or valid clock strings,
with at least one clock string present, `time_to_seconds` succeeds and
returns the pointwise-aligned result. -/
theorem tts_success {times : List Str}
    (hall : ∀ t ∈ times, t = sentinel ∨ validClock t = true)
    (hex : ∃ t, t ∈ times ∧ validClock t = true) :
    time_to_seconds times =
      some (times.map (fun t => if t = sentinel then none else some (rowValue t))) := by
  have hmem : ∀ t ∈ times.filter (fun t => t != sentinel), validClock t = true := by
    intro t ht
    rw [List.mem_filter] at ht
    rcases hall t ht.1 with h | h
    · exfalso
      have := ht.2
      simp [h] at this
    · exact h
  have hlen : ∀ r ∈ (times.filter (fun t => t != sentinel)).map rowSplit, r.length = 3 := by
    intro r hr
    rw [List.mem_map] at hr
    obtain ⟨t, ht, rfl⟩ := hr
    obtain ⟨f0, f1, f2, hs, -, -, -⟩ := validClock_elim (hmem t ht)
    rw [hs]
    rfl
  have hne : (times.filter (fun t => t != sentinel)).map rowSplit ≠ [] := by
    obtain ⟨t, ht, hv⟩ := hex
    have htf : t ∈ times.filter (fun t => t != sentinel) := by
      rw [List.mem_filter]
      exact ⟨ht, by simp [validClock_ne_sentinel hv]⟩
    have hmm := List.mem_map_of_mem rowSplit htf
    intro hcon
    rw [hcon] at hmm
    simp at hmm
  have hw : ((times.filter (fun t => t != sentinel)).map rowSplit).foldl
      (fun a r => max a r.length) 0 = 3 := by
    rw [foldl_max_const hlen 0]
    have hie : ((times.filter (fun t => t != sentinel)).map rowSplit).isEmpty = false := by
      cases hie : ((times.filter (fun t => t != sentinel)).map rowSplit).isEmpty with
      | false => rfl
      | true => exact absurd (List.isEmpty_iff.mp hie) hne
    rw [hie]
    rfl
  have hguard : ((times.filter (fun t => t != sentinel)).map rowSplit).all
      (fun r => r.length == ((times.filter (fun t => t != sentinel)).map rowSplit).foldl
        (fun a r => max a r.length) 0 && r.all (fun c => (pyInt c).isSome)) = true := by
    rw [List.all_eq_true]
    intro r hr
    have hr3 : r.length = 3 := hlen r hr
    rw [List.mem_map] at hr
    obtain ⟨t, ht, rfl⟩ := hr
    obtain ⟨f0, f1, f2, hs, ⟨h0ne, h0d, -⟩, ⟨h1ne, h1d, -⟩, ⟨h2ne, h2d, -⟩⟩ :=
      validClock_elim (hmem t ht)
    rw [Bool.and_eq_true]
    constructor
    · rw [hw]
      simp [hr3]
    · rw [List.all_eq_true]
      intro c hc
      rw [hs] at hc
      simp only [List.mem_cons, List.not_mem_nil, or_false] at hc
      rcases hc with rfl | rfl | rfl
      · simp [pyInt_digits c h0ne h0d]
      · simp [pyInt_digits c h1ne h1d]
      · simp [pyInt_digits c h2ne h2d]
  simp only [time_to_seconds]
  rw [if_pos hguard, if_pos hw, List.map_map]
  have hc : ((fun r => dotProd (List.filterMap pyInt r) multiplier) ∘ rowSplit) = rowValue :=
    rfl
  rw [hc, reindexBySentinel_filter times rowValue]

/-- A non-sentinel cell with a non-integer field or a field count other
than three makes the whole batch call raise. -/
theorem tts_none_of_badrow {times : List Str} {w : Str} (hmem : w ∈ times)
    (hw : w ≠ sentinel)
    (hbad : (∃ c ∈ rowSplit w, pyInt c = none) ∨ (rowSplit w).length ≠ 3) :
    time_to_seconds times = none := by
  cases hres : time_to_seconds times with
  | none => rfl
  | some res =>
    exfalso
    simp only [time_to_seconds] at hres
    split at hres
    case isTrue hguard =>
      split at hres
      case isTrue hwidth =>
        have hwf : w ∈ times.filter (fun t => t != sentinel) := by
          rw [List.mem_filter]
          exact ⟨hmem, by simp [hw]⟩
        have hrow := List.all_eq_true.mp hguard (rowSplit w) (List.mem_map_of_mem rowSplit hwf)
        rw [Bool.and_eq_true] at hrow
        have hlen3 : (rowSplit w).length = 3 := by
          have := hrow.1
          rw [beq_iff_eq] at this
          rw [this, hwidth]
        rcases hbad with ⟨c, hc, hcn⟩ | hne3
        · have := List.all_eq_true.mp hrow.2 c hc
          rw [hcn] at this
          simp at this
        · exact hne3 hlen3
      case isFalse h => exact absurd hres (by simp)
    case isFalse h => exact absurd hres (by simp)

/-- C2: for every valid clock string of the form `H:MM:SS` or
`HH:MM:SS` (hours one or two digits, hence in [0, 99];
minutes/seconds two-digit non-negative integers), `time_to_seconds`
applied to a sequence containing that string yields
`hours*3600 + minutes*60 + seconds` at that position: the singleton
batch succeeds with exactly that value, and in any batch that returns,
the position holding the string carries that value. -/
theorem c2_valid_clock_parses (w : Str) (hw : validClock w = true) :
    time_to_seconds [w] = some [some (clockSecs w)] ∧
    ∀ (times : List Str) (res : List (Option Int)) (i : Nat),
      time_to_seconds times = some res → times[i]? = some w →
      res[i]? = some (some (clockSecs w)) := by
  have hns := validClock_ne_sentinel hw
  have hrv := rowValue_validClock hw
  constructor
  · rw [tts_success (by intro t ht; simp at ht; subst ht; right; exact hw) ⟨w, by simp, hw⟩]
    simp [hns, hrv]
  · intro times res i hres hi
    have h := tts_getElem hres hi
    rw [if_neg hns, hrv] at h
    exact h

/-- Witness for C2 at the concrete clock string "1:23:45"
(1*3600 + 23*60 + 45 = 5025). -/
theorem c2_witness :
    validClock "1:23:45".toList = true ∧
    time_to_seconds ["1:23:45".toList] = some [some 5025] := by
  have h := (c2_valid_clock_parses "1:23:45".toList (by decide)).1
  have hv : clockSecs "1:23:45".toList = 5025 := by decide
  rw [hv] at h
  exact ⟨by decide, h⟩

/-- C3 counterexample: the claim says a sentinel position never makes
time parsing raise, but on an input whose only position holds the
sentinel the call raises (the non-sentinel remainder is empty, so the
field-split frame has zero columns and the matrix product fails). -/
theorem c3_counterexample : time_to_seconds [sentinel] = none := by decide

/-- C3 as amended: in any batch for which time parsing returns, every
position holding the sentinel dash glyph carries the explicit missing
Duration — `none`, which is distinguishable from `some 0`. -/
theorem c3_amended_sentinel_is_missing {times : List Str} {res : List (Option Int)}
    {i : Nat} (hres : time_to_seconds times = some res) (hi : times[i]? = some sentinel) :
    res[i]? = some none ∧ (none : Option Int) ≠ some 0 := by
  refine ⟨?_, by simp⟩
  have h := tts_getElem hres hi
  rw [if_pos rfl] at h
  exact h

/-- Witness for the amended C3 on the batch `["–", "0:30:05"]`. -/
theorem c3_witness :
    time_to_seconds [sentinel, "0:30:05".toList] = some [none, some 1805] ∧
    ([none, some 1805] : List (Option Int))[0]? = some none ∧
    (none : Option Int) ≠ some 0 := by
  have h := @c3_amended_sentinel_is_missing [sentinel, "0:30:05".toList]
    [none, some 1805] 0 (by decide) (by decide)
  exact ⟨by decide, h.1, h.2⟩

/-- C4 counterexample: "1:2:3" is neither the sentinel nor of valid
`H:MM:SS` shape (its minutes field has one digit), yet time parsing
does not fail — it silently coerces the string to 3723 seconds. -/
theorem c4_counterexample :
    validClock "1:2:3".toList = false ∧ "1:2:3".toList ≠ sentinel ∧
    time_to_seconds ["1:2:3".toList] = some [some 3723] := by
  refine ⟨by decide, by decide, by decide⟩

/-- C4 as amended: a non-sentinel entry with a non-integer field — one
containing a character `int()` can never accept (an ASCII character
that is no digit, sign, underscore or whitespace, e.g. a letter) — or
with a field count other than three makes time parsing fail (the whole
batch call raises); departures from the `H:MM:SS` shape that `int()`
still coerces — one-digit minutes, signed fields, embedded whitespace
or underscore separators — are converted rather than rejected. -/
theorem c4_amended_rejects_nonint_or_wrong_count {times : List Str} {w : Str}
    (hmem : w ∈ times) (hw : w ≠ sentinel)
    (hbad : (∃ f ∈ rowSplit w, ∃ c ∈ f, hostileChar c = true) ∨
      (rowSplit w).length ≠ 3) :
    time_to_seconds times = none := by
  apply tts_none_of_badrow hmem hw
  rcases hbad with ⟨f, hf, c, hc, hch⟩ | h3
  · exact Or.inl ⟨f, hf, pyInt_none_of_hostile hc hch⟩
  · exact Or.inr h3

/-- Witness for the amended C4 at "ab:cd:ef" (letter fields, which
`int` can never accept). -/
theorem c4_witness :
    "ab:cd:ef".toList ∈ ["ab:cd:ef".toList] ∧ "ab:cd:ef".toList ≠ sentinel ∧
    time_to_seconds ["ab:cd:ef".toList] = none := by
  refine ⟨by decide, by decide, ?_⟩
  exact @c4_amended_rejects_nonint_or_wrong_count ["ab:cd:ef".toList] "ab:cd:ef".toList
    (by decide) (by decide) (Or.inl (by decide))

/-- C5: on an ordered batch mixing valid clock strings and sentinels,
time parsing returns a parallel sequence of the same length in the
same index alignment — position `i` of the output is determined by
position `i` of the input alone (missing at sentinels, the cell's
parsed value otherwise), so no row is dropped, reordered or
duplicated. -/
theorem c5_batch_parallel (times : List Str)
    (hall : ∀ t ∈ times, t = sentinel ∨ validClock t = true)
    (hex : ∃ t, t ∈ times ∧ validClock t = true) :
    ∃ res, time_to_seconds times = some res ∧ res.length = times.length ∧
      ∀ (i : Nat) (t : Str), times[i]? = some t →
        res[i]? = some (if t = sentinel then none else some (rowValue t)) := by
  refine ⟨_, tts_success hall hex, by simp, ?_⟩
  intro i t ht
  rw [List.getElem?_map, ht]
  rfl

/-- Witness for C5 on the batch `["–", "1:00:00"]`. -/
theorem c5_witness :
    ∃ res, time_to_seconds [sentinel, "1:00:00".toList] = some res ∧
      res.length = [sentinel, "1:00:00".toList].length ∧
      ∀ (i : Nat) (t : Str), [sentinel, "1:00:00".toList][i]? = some t →
        res[i]? = some (if t = sentinel then none else some (rowValue t)) :=
  c5_batch_parallel _ (by decide) ⟨"1:00:00".toList, by decide, by decide⟩

/-- C10: when no entry is a parseable clock string — every entry is
the sentinel dash, or the sequence is empty — `time_to_seconds` raises
instead of returning an all-missing sequence: the empty non-sentinel
remainder splits into a zero-column frame, whose width is not the
three required by the unit-conversion vector. -/
theorem c10_all_sentinel_raises (times : List Str) (h : ∀ t ∈ times, t = sentinel) :
    time_to_seconds times = none := by
  have hfe : times.filter (fun t => t != sentinel) = [] := by
    induction times with
    | nil => rfl
    | cons t ts ih =>
      have ht : t = sentinel := h t (by simp)
      rw [List.filter_cons]
      simp only [ht, bne_self_eq_false, Bool.false_eq_true, if_false]
      exact ih (fun x hx => h x (by simp [hx]))
  simp [time_to_seconds, hfe]

/-- Witness for C10 on the all-sentinel batch `["–", "–"]`. -/
theorem c10_witness : time_to_seconds [sentinel, sentinel] = none :=
  c10_all_sentinel_raises _ (by decide)

/-- C6: `get_runs` returns exactly the seconds of the workout rows
whose label contains the running text (a label-text match, not a
positional one), in original row order, re-indexed contiguously from 1
to K where K is the number of matching rows — K is the matching-row
count for every input, not a hard-coded 8. -/
theorem c6_runs_by_label (d : IndividualDetails) :
    (d.get_runs).map Prod.snd =
      (d.workout_result.filter (fun r => containsSub "Running".toList r.split)).map
        (fun r => r.seconds) ∧
    (d.get_runs).map Prod.fst = List.range' 1 (filter_running d.workout_result).length ∧
    (d.get_runs).length =
      (d.workout_result.filter (fun r => containsSub "Running".toList r.split)).length := by
  unfold IndividualDetails.get_runs
  refine ⟨?_, ?_, ?_⟩
  · rw [List.enumFrom_map_snd]
    rfl
  · rw [List.enumFrom_map_fst, List.length_map]
  · rw [List.enumFrom_length, List.length_map]
    rfl

theorem stride2_getElem {α : Type} (l : List α) (j : Nat) :
    (stride2 l)[j]? = l[2*j]? := by
  induction l using stride2.induct generalizing j with
  | case1 => simp [stride2]
  | case2 x =>
    match j with
    | 0 => simp [stride2]
    | j+1 =>
      simp [stride2]
      omega
  | case3 x y xs ih =>
    match j with
    | 0 => simp [stride2]
    | j+1 =>
      have h2 : 2 * (j + 1) = 2*j + 1 + 1 := by omega
      simp only [stride2, List.getElem?_cons_succ, h2, ih]

/-- C7: `get_other_exercises` selects workout rows by the fixed
positional stride of `iloc[1:-2:2]` — its j-th entry is the row at
position `2j+1` (positions 1, 3, 5, …, skipping row 0 and stopping
before the final two rows), independent of any label predicate. -/
theorem c7_other_exercises_stride (d : IndividualDetails) (j : Nat) :
    (d.get_other_exercises)[j]? =
      if 2*j + 3 < d.workout_result.length then
        (d.workout_result[2*j + 1]?).map (fun r => (r.split, r.seconds))
      else none := by
  unfold IndividualDetails.get_other_exercises ilocOneToMinusTwoStepTwo
  rw [List.getElem?_map, stride2_getElem, List.getElem?_drop, List.getElem?_take]
  by_cases h : 1 + 2*j < d.workout_result.length - 2
  · rw [if_pos h, if_pos (by omega)]
    have he : 1 + 2*j = 2*j + 1 := by omega
    rw [he]
  · rw [if_neg h, if_neg (by omega)]
    rfl

/-- A `mapM` over `Except` whose entries all succeed returns the map of
the per-entry results. -/
theorem mapM_ok_map {α β : Type} (l : List α) (f : α → Except PyErr β) (g : α → β)
    (h : ∀ a ∈ l, f a = Except.ok (g a)) : l.mapM f = Except.ok (l.map g) := by
  induction l with
  | nil => rfl
  | cons a l ih =>
    rw [List.mapM_cons, h a (by simp), ih (fun x hx => h x (by simp [hx]))]
    rfl

/-- C8 counterexample: a list item with no anchor is not skipped — it
contributes the entry `base ++ "None"` to the returned sequence (the
f-string renders the `None` returned by `get_href`) — and an anchor
that is present but lacks an href attribute raises a `KeyError`
instead of being skipped silently. -/
theorem c8_counterexample :
    get_all_hrefs
        (fun _ => [some (some "?p=A".toList), none, some (some "?p=B".toList)])
        "https://x/index.php?a=1".toList =
      Except.ok ["https://x/index.php?p=A".toList, "https://x/index.phpNone".toList,
        "https://x/index.php?p=B".toList] ∧
    get_all_hrefs (fun _ => [some none]) "https://x/index.php".toList =
      Except.error PyErr.keyError :=
  ⟨rfl, rfl⟩

/-- C8 as amended: when no list item holds an anchor that lacks an
href attribute, link discovery does not raise and returns, in document
order, one entry per list item — the base URL concatenated with the
href for anchored items, and the base URL concatenated with the text
"None" (not a skipped entry) for items with no anchor; an anchor
without an href attribute instead raises a `KeyError`. -/
theorem c8_amended_hrefs (fetchRows : Str → List (Option (Option Str))) (url : Str)
    (h : ∀ r ∈ fetchRows url, r ≠ some none) :
    get_all_hrefs fetchRows url =
      Except.ok ((fetchRows url).map
        (fun r => get_base_url url ++ pyReprOfOptStr r.join)) := by
  unfold get_all_hrefs
  apply mapM_ok_map
  intro r hr
  match r, h r hr with
  | none, _ => rfl
  | some (some x), _ => rfl
  | some none, hne => exact absurd rfl hne

/-- Witness for the amended C8: one anchored item and one anchor-less
item produce two entries, the second being `base ++ "None"`. -/
theorem c8_witness :
    get_all_hrefs (fun _ => [some (some "?p=A".toList), none])
        "https://y/index.php".toList =
      Except.ok ["https://y/index.php?p=A".toList, "https://y/index.phpNone".toList] := by
  have h := c8_amended_hrefs (fun _ => [some (some "?p=A".toList), none])
    "https://y/index.php".toList (by decide)
  rw [h]
  rfl

/-- C1 counterexample: of the two discovered athlete URLs, A's
fetch-and-extract succeeds and B's fails with a structure failure
inside `from_url` (a successful read returning only three tables, so
the positional access to the fourth raises), i.e. N = 2, M = 1; the
claim says the batch build must not raise, but `Details.from_urls`
propagates the error instead of producing a collection. -/
theorem c1_counterexample :
    (okOrNone (IndividualDetails.from_url demoReadHtml
      "https://hy/index.php?pidp=A".toList)).isSome = true ∧
    IndividualDetails.from_url demoReadHtml "https://hy/index.php?pidp=B".toList =
      Except.error PyErr.indexError ∧
    Details.from_urls demoReadHtml demoFetchRows ["https://hy/index.php?page=1".toList] =
      Except.error PyErr.indexError :=
  ⟨rfl, rfl, rfl⟩

/-- C1 as amended: when every discovered athlete URL's `from_url` call
completes without an uncaught exception — reads that fail inside
`pd.read_html` are caught and yield `None` — the batch build does not
raise and returns one entry per URL in the original order: `none` for
each caught failure and the parsed record otherwise, so the usable
records are exactly the successes in their original relative order;
but a structure failure after a successful read escapes `from_url` and
aborts the whole batch. -/
theorem c1_amended_read_failures_only (read_html : Str → Option (List RawTable))
    (fetchRows : Str → List (Option (Option Str))) (urls : List Str)
    (hls : List (List Str))
    (hok1 : urls.mapM (get_all_hrefs fetchRows) = Except.ok hls)
    (hok2 : ∀ u ∈ hls.flatten, (IndividualDetails.from_url read_html u).isOk = true) :
    Details.from_urls read_html fetchRows urls =
      Except.ok { individuals :=
        hls.flatten.map (fun u => okOrNone (IndividualDetails.from_url read_html u)) } ∧
    (hls.flatten.map (fun u => okOrNone (IndividualDetails.from_url read_html u))).length =
      hls.flatten.length ∧
    (hls.flatten.map (fun u => okOrNone (IndividualDetails.from_url read_html u))).filterMap
        id =
      hls.flatten.filterMap (fun u => okOrNone (IndividualDetails.from_url read_html u)) := by
  have hfun : ∀ u ∈ hls.flatten, IndividualDetails.from_url read_html u =
      Except.ok (okOrNone (IndividualDetails.from_url read_html u)) := by
    intro u hu
    have h := hok2 u hu
    cases hres : IndividualDetails.from_url read_html u with
    | ok v => rfl
    | error e =>
      rw [hres] at h
      simp [Except.isOk, Except.toBool] at h
  refine ⟨?_, by rw [List.length_map], by rw [List.filterMap_map]; rfl⟩
  unfold Details.from_urls
  rw [hok1]
  change (hls.flatten.mapM (IndividualDetails.from_url read_html)) >>=
    (fun individuals => Except.ok (Details.mk individuals)) = _
  rw [mapM_ok_map hls.flatten (IndividualDetails.from_url read_html)
    (fun u => okOrNone (IndividualDetails.from_url read_html u)) hfun]
  rfl

/-- Witness for the amended C1: athlete A parses, athlete B's read
fails and is caught; the batch returns two entries in order, the
second `none`, with exactly one usable record. -/
theorem c1_witness :
    Details.from_urls wReadHtml demoFetchRows ["https://hy/index.php?page=1".toList] =
      Except.ok { individuals := [okOrNone (IndividualDetails.from_url wReadHtml
        "https://hy/index.php?pidp=A".toList), none] } ∧
    (okOrNone (IndividualDetails.from_url wReadHtml
      "https://hy/index.php?pidp=A".toList)).isSome = true := by
  have h := c1_amended_read_failures_only wReadHtml demoFetchRows
    ["https://hy/index.php?page=1".toList]
    [["https://hy/index.php?pidp=A".toList, "https://hy/index.php?pidp=B".toList]]
    rfl (by decide)
  refine ⟨?_, rfl⟩
  rw [h.1]
  rfl

/-- A label absent from a series index looks up as a missing cell. -/
theorem seriesGet_eq_none {s : List (Str × Option Int)} {l : Str}
    (h : l ∉ s.map Prod.fst) : seriesGet s l = none := by
  unfold seriesGet
  have hf : s.find? (fun p => p.1 == l) = none := by
    rw [List.find?_eq_none]
    intro p hp hbe
    exact h (List.mem_map.mpr ⟨p, hp, eq_of_beq hbe⟩)
  rw [hf]

theorem contains_eq_false_of_not_mem {l : List Str} {x : Str} (h : x ∉ l) :
    List.contains l x = false := by
  cases hc : List.contains l x with
  | false => rfl
  | true => exact absurd (List.elem_iff.mp hc) h

/-- With disjoint label sets the index union is the concatenation. -/
theorem unionIndex_pair_disjoint {l1 l2 : List Str} (h : ∀ x ∈ l2, x ∉ l1) :
    unionIndex [l1, l2] = l1 ++ l2 := by
  unfold unionIndex
  simp only [List.foldl_cons, List.foldl_nil, List.nil_append]
  have h1 : (l1.filter fun x => !List.contains [] x) = l1 := by
    apply List.filter_eq_self.mpr
    intro a _
    rfl
  rw [h1]
  have h2 : (l2.filter fun x => !List.contains l1 x) = l2 := by
    apply List.filter_eq_self.mpr
    intro a ha
    rw [contains_eq_false_of_not_mem (h a ha)]
    rfl
  rw [h2]

/-- C9: over two athlete records with duplicate-free, disjoint
exercise-label sets (on a duplicated label pandas' reindex raises, a
path outside the modelled fragment), the cross-athlete exercises view
has one row per athlete whose columns are the union of the two label
sets, with no duplicate column; each athlete's row holds the
athlete's own value at the
athlete's own labels and a missing cell (not an error) at the other
athlete's labels, so no value of one athlete appears in the other
athlete's row. -/
theorem c9_outer_join (d1 d2 : IndividualDetails) (n1 n2 : Str)
    (hu1 : ((d1.get_exercises).map Prod.fst).Nodup)
    (hu2 : ((d2.get_exercises).map Prod.fst).Nodup)
    (hn1 : d1.get_name false = some n1) (hn2 : d2.get_name false = some n2)
    (hd : ∀ l ∈ (d2.get_exercises).map Prod.fst, l ∉ (d1.get_exercises).map Prod.fst) :
    ∃ r1 r2,
      Details.get_exercises ⟨[some d1, some d2]⟩ false = some [(n1, r1), (n2, r2)] ∧
      r1.map Prod.fst =
        (d1.get_exercises).map Prod.fst ++ (d2.get_exercises).map Prod.fst ∧
      (r1.map Prod.fst).Nodup ∧
      r2.map Prod.fst = r1.map Prod.fst ∧
      (∀ l v, (l, v) ∈ r1 →
        (l ∈ (d1.get_exercises).map Prod.fst ∧ v = seriesGet (d1.get_exercises) l) ∨
        (l ∈ (d2.get_exercises).map Prod.fst ∧ v = none)) ∧
      (∀ l v, (l, v) ∈ r2 →
        (l ∈ (d2.get_exercises).map Prod.fst ∧ v = seriesGet (d2.get_exercises) l) ∨
        (l ∈ (d1.get_exercises).map Prod.fst ∧ v = none)) := by
  have hU := unionIndex_pair_disjoint hd
  have hid1 : (Prod.fst ∘ fun lbl => (lbl, seriesGet (d1.get_exercises) lbl)) = id := rfl
  refine ⟨(unionIndex [(d1.get_exercises).map Prod.fst, (d2.get_exercises).map Prod.fst]).map
      (fun lbl => (lbl, seriesGet (d1.get_exercises) lbl)),
    (unionIndex [(d1.get_exercises).map Prod.fst, (d2.get_exercises).map Prod.fst]).map
      (fun lbl => (lbl, seriesGet (d2.get_exercises) lbl)), ?_, ?_, ?_, ?_, ?_, ?_⟩
  · simp only [Details.get_exercises, List.mapM_cons, List.mapM_nil]
    simp [hn1, hn2]
  · rw [List.map_map, hid1, List.map_id, hU]
  · rw [List.map_map, hid1, List.map_id, hU]
    exact hu1.append hu2 (fun a ha1 ha2 => hd a ha2 ha1)
  · rw [List.map_map, List.map_map]
    rfl
  · intro l v hlv
    rw [List.mem_map] at hlv
    obtain ⟨lbl, hlbl, heq⟩ := hlv
    rw [Prod.mk.injEq] at heq
    obtain ⟨hl, hv⟩ := heq
    subst hl
    rw [hU, List.mem_append] at hlbl
    rcases hlbl with h1 | h2
    · exact Or.inl ⟨h1, hv.symm⟩
    · refine Or.inr ⟨h2, ?_⟩
      rw [← hv, seriesGet_eq_none (hd lbl h2)]
  · intro l v hlv
    rw [List.mem_map] at hlv
    obtain ⟨lbl, hlbl, heq⟩ := hlv
    rw [Prod.mk.injEq] at heq
    obtain ⟨hl, hv⟩ := heq
    subst hl
    rw [hU, List.mem_append] at hlbl
    rcases hlbl with h1 | h2
    · refine Or.inr ⟨h1, ?_⟩
      have hnot2 : lbl ∉ (d2.get_exercises).map Prod.fst := fun hl2 => hd lbl hl2 h1
      rw [← hv, seriesGet_eq_none hnot2]
    · exact Or.inl ⟨h2, hv.symm⟩

/-- Witness for C9 on two concrete athletes with disjoint label sets
("Running 1" versus "Wall Balls"). -/
theorem c9_witness :
    ∃ r1 r2,
      Details.get_exercises ⟨[some athleteA, some athleteB]⟩ false =
        some [("Alice".toList, r1), ("Bob".toList, r2)] ∧
      r1.map Prod.fst =
        (athleteA.get_exercises).map Prod.fst ++ (athleteB.get_exercises).map Prod.fst ∧
      (r1.map Prod.fst).Nodup ∧
      r2.map Prod.fst = r1.map Prod.fst ∧
      (∀ l v, (l, v) ∈ r1 →
        (l ∈ (athleteA.get_exercises).map Prod.fst ∧
          v = seriesGet (athleteA.get_exercises) l) ∨
        (l ∈ (athleteB.get_exercises).map Prod.fst ∧ v = none)) ∧
      (∀ l v, (l, v) ∈ r2 →
        (l ∈ (athleteB.get_exercises).map Prod.fst ∧
          v = seriesGet (athleteB.get_exercises) l) ∨
        (l ∈ (athleteA.get_exercises).map Prod.fst ∧ v = none)) :=
  c9_outer_join athleteA athleteB "Alice".toList "Bob".toList
    (by decide) (by decide) (by decide) (by decide) (by decide)
